import Mathlib

/-!
Verification development for the lexsy-assignment repository.

The backend (`src/backend/src/index.js`) stores uploaded .docx documents in an
in-memory map, extracts `{{ ... }}` placeholders from `word/document.xml` with
the regex `/\{\{\s*([^{}]+?)\s*\}\}/g`, and on finalize rewrites the XML with
`documentXml.replace(new RegExp('\\{\\{\\s*' + escapeRegExp(key) + '\\s*\\}\\}', 'g'),
encodeXml(value))` for every entry of the supplied values object.

The model below is a shallow embedding over `List Char`:
* JavaScript regex matching of the two concrete patterns above is embedded as
  explicit backtracking matchers (`matchFinAt`, `matchExAt`) that mirror the
  greedy / lazy quantifier semantics of those patterns;
* `String.prototype.replace` is embedded including its `$`-replacement-pattern
  expansion (`$$`, `$&`, the backtick form, `$'`), since the code passes the
  encoded value directly as the replacement string;
* `escapeRegExp` makes the key a literal in the constructed pattern, so the
  model matches the key character-by-character;
* the zip container, mammoth HTML rendering and Express transport are external
  collaborators and are modelled as abstract function parameters (`Env`).
-/

namespace Lexsy

/-- `'{'` (written via its code point to keep brace characters out of literals). -/
def ob : Char := Char.ofNat 123

/-- `'}'`. -/
def cb : Char := Char.ofNat 125

/-- `'&'`. -/
def ampC : Char := Char.ofNat 38

/-- `'<'`. -/
def ltC : Char := Char.ofNat 60

/-- `'>'`. -/
def gtC : Char := Char.ofNat 62

/-- The double-quote character. -/
def quotC : Char := Char.ofNat 34

/-- The single-quote character. -/
def aposC : Char := Char.ofNat 39

/-- The dollar character. -/
def dollarC : Char := Char.ofNat 36

/-- The backtick character. -/
def btC : Char := Char.ofNat 96

/-- The characters of a string literal. -/
def chars (s : String) : List Char := s.data

/-- JavaScript regex `\s` (the whitespace class used by the patterns in
`index.js`): ASCII whitespace plus the Unicode space separators, line/paragraph
separators, NBSP and BOM. -/
def isJsWs (c : Char) : Bool :=
  c.toNat = 32 || c.toNat = 9 || c.toNat = 10 || c.toNat = 11 || c.toNat = 12 ||
  c.toNat = 13 || c.toNat = 160 || c.toNat = 5760 ||
  (8192 ≤ c.toNat && c.toNat ≤ 8202) ||
  c.toNat = 8232 || c.toNat = 8233 || c.toNat = 8239 || c.toNat = 8287 ||
  c.toNat = 12288 || c.toNat = 65279

/-- Length of the maximal `\s*` prefix. -/
def wsPrefixLen : List Char → Nat
  | [] => 0
  | c :: cs => if isJsWs c then wsPrefixLen cs + 1 else 0

/-- `a` is a literal prefix of `b` (how the `escapeRegExp`-escaped key is
matched inside the substitution pattern). -/
def leadsWith : List Char → List Char → Bool
  | [], _ => true
  | _ :: _, [] => false
  | a :: as, b :: bs => if a = b then leadsWith as bs else false

/-- JavaScript `String.prototype.trim` on a character list. -/
def trimJs (s : List Char) : List Char :=
  ((s.dropWhile (fun c => isJsWs c)).reverse.dropWhile (fun c => isJsWs c)).reverse

/-- Single-character global replacement: `value.replace(/c/g, r)` for a
replacement string `r` containing no `$` patterns. -/
def repChar (c : Char) (r : List Char) (s : List Char) : List Char :=
  (s.map (fun x => if x = c then r else [x])).flatten

/-- `encodeXml` from `index.js`: sequentially replace `&`, `<`, `>`, `"`, `'`
by their XML entities. -/
def encodeXml (s : List Char) : List Char :=
  repChar aposC (chars "&apos;")
    (repChar quotC (chars "&quot;")
      (repChar gtC (chars "&gt;")
        (repChar ltC (chars "&lt;")
          (repChar ampC (chars "&amp;") s))))

/-- Phase matching `\s*\}\}` at the front of `s`; returns the number of
characters consumed.  The greedy `\s*` is deterministic here because a closing
brace is not whitespace. -/
def tailMatch (s : List Char) : Option Nat :=
  let m := wsPrefixLen s
  if (s.drop m).take 2 = [cb, cb] then some (m + 2) else none

/-- One backtracking attempt of the substitution pattern after `\{\{` with a
gap of exactly `i` whitespace characters before the literal key. -/
def gapTry (key s : List Char) (i : Nat) : Option Nat :=
  if leadsWith key (s.drop i) then
    (tailMatch (s.drop (i + key.length))).map (fun t => i + key.length + t)
  else none

/-- Greedy backtracking over the first `\s*` of the substitution pattern:
try the longest whitespace gap first, then shorter ones. -/
def gapLoop (key s : List Char) : Nat → Option Nat
  | 0 => gapTry key s 0
  | i + 1 =>
    match gapTry key s (i + 1) with
    | some r => some r
    | none => gapLoop key s i

/-- Match of `new RegExp('\\{\\{\\s*' + escapeRegExp(key) + '\\s*\\}\\}')` at
the front of `s`; returns the length of the match. -/
def matchFinAt (key s : List Char) : Option Nat :=
  match s with
  | c1 :: c2 :: rest =>
    if c1 = ob then
      if c2 = ob then (gapLoop key rest (wsPrefixLen rest)).map (fun r => r + 2)
      else none
    else none
  | _ => none

/-- JavaScript replacement-string expansion performed by `String.replace`:
`$$` inserts a dollar, `$&` the matched substring, a backtick form the text
before the match, `$'` the text after it; everything else is literal (the
pattern has no capture groups, so `$<digit>` stays literal). -/
def expandRepl (before matched after : List Char) : List Char → List Char
  | [] => []
  | c :: cs =>
    if c = dollarC then
      match cs with
      | [] => [dollarC]
      | d :: ds =>
        if d = dollarC then dollarC :: expandRepl before matched after ds
        else if d = ampC then matched ++ expandRepl before matched after ds
        else if d = btC then before ++ expandRepl before matched after ds
        else if d = aposC then after ++ expandRepl before matched after ds
        else dollarC :: d :: expandRepl before matched after ds
    else c :: expandRepl before matched after cs

/-- Fuel-driven scanner of `documentXml.replace(pattern, repl)` with the
global flag: leftmost matches, continuing after each match. -/
def replFinAux (key repl : List Char) : Nat → List Char → List Char → List Char
  | 0, _, s => s
  | _ + 1, _, [] => []
  | f + 1, before, c :: cs =>
    match matchFinAt key (c :: cs) with
    | some n =>
      expandRepl before ((c :: cs).take n) ((c :: cs).drop n) repl ++
        replFinAux key repl f (before ++ (c :: cs).take n) ((c :: cs).drop n)
    | none => c :: replFinAux key repl f (before ++ [c]) cs

/-- `documentXml.replace(placeholderPattern, repl)` (global). -/
def replaceFin (key repl s : List Char) : List Char :=
  replFinAux key repl (s.length + 1) [] s

/-- Scanner deciding whether the substitution pattern matches anywhere. -/
def hasFinAux (key : List Char) : Nat → List Char → Bool
  | 0, _ => false
  | _ + 1, [] => false
  | f + 1, c :: cs => (matchFinAt key (c :: cs)).isSome || hasFinAux key f cs

/-- Whether the substitution pattern for `key` matches anywhere in `s`. -/
def hasFin (key s : List Char) : Bool :=
  hasFinAux key (s.length + 1) s

/-- A JSON value arriving in the `values` object of the finalize request: the
handler keeps strings and turns every non-string into the empty string. -/
inductive JsVal where
  | str (s : List Char)
  | nonStr
deriving DecidableEq

/-- `typeof rawValue === 'string' ? rawValue : ''`. -/
def jsToStr : JsVal → List Char
  | JsVal.str s => s
  | JsVal.nonStr => []

/-- One iteration of the finalize loop: replace every match of the pattern for
`key` by the XML-encoded value (`index.js` lines 162-166). -/
def applyEntry (key : List Char) (v : JsVal) (xml : List Char) : List Char :=
  replaceFin key (encodeXml (jsToStr v)) xml

/-- The whole finalize substitution loop over the entries of `values`, in
object insertion order. -/
def applyValues (vals : List (List Char × JsVal)) (xml : List Char) : List Char :=
  vals.foldl (fun x kv => applyEntry kv.1 kv.2 x) xml

/-! ## Placeholder extraction (`extractPlaceholders`, `index.js` lines 206-229)

The discovery regex is `/\{\{\s*([^{}]+?)\s*\}\}/g`: after `\{\{` and a greedy
`\s*` comes a lazy non-empty run of non-brace characters (the capture group),
then `\s*\}\}`. -/

/-- The lazy `([^{}]+?)\s*\}\}` phase: starting at `s`, find the shortest
non-empty run of non-brace characters followed by `\s*\}\}`; returns the run
length and the tail-phase length. -/
def lazyScan : List Char → Option (Nat × Nat)
  | [] => none
  | c :: cs =>
    if c = ob then none
    else if c = cb then none
    else
      match tailMatch cs with
      | some t => some (1, t)
      | none =>
        match lazyScan cs with
        | some (k, t) => some (k + 1, t)
        | none => none

/-- One attempt of the discovery pattern after `\{\{` with a whitespace gap of
exactly `i`; returns total length after the braces and the capture group. -/
def exGapTry (rest : List Char) (i : Nat) : Option (Nat × List Char) :=
  match lazyScan (rest.drop i) with
  | some (k, t) => some (i + k + t, (rest.drop i).take k)
  | none => none

/-- Greedy backtracking over the first `\s*` of the discovery pattern. -/
def exGapLoop (rest : List Char) : Nat → Option (Nat × List Char)
  | 0 => exGapTry rest 0
  | i + 1 =>
    match exGapTry rest (i + 1) with
    | some r => some r
    | none => exGapLoop rest i

/-- Match of the discovery pattern at the front of `s`; returns the match
length and the capture group. -/
def matchExAt (s : List Char) : Option (Nat × List Char) :=
  match s with
  | c1 :: c2 :: rest =>
    if c1 = ob then
      if c2 = ob then (exGapLoop rest (wsPrefixLen rest)).map (fun p => (p.1 + 2, p.2))
      else none
    else none
  | _ => none

/-- Index of the first `>` in a list. -/
def firstGt : List Char → Option Nat
  | [] => none
  | c :: cs => if c = gtC then some 0 else (firstGt cs).map (· + 1)

/-- Length consumed after a `<` by `[^>]+>`, if it matches. -/
def tagLen (cs : List Char) : Option Nat :=
  match firstGt cs with
  | some p => if 1 ≤ p then some (p + 1) else none
  | none => none

/-- Fuel-driven scanner of `stripXml`: `value.replace(/<[^>]+>/g, ' ')`. -/
def stripAux : Nat → List Char → List Char
  | 0, s => s
  | _ + 1, [] => []
  | f + 1, c :: cs =>
    if c = ltC then
      match tagLen cs with
      | some n => ' ' :: stripAux f (cs.drop n)
      | none => c :: stripAux f cs
    else c :: stripAux f cs

/-- `stripXml` from `index.js`. -/
def stripXml (s : List Char) : List Char :=
  stripAux (s.length + 1) s

/-- Fuel-driven literal global replacement (used for the entity decodes, whose
patterns are multi-character literals and whose replacements contain no `$`). -/
def replaceLitAux (pat repl : List Char) : Nat → List Char → List Char
  | 0, s => s
  | _ + 1, [] => []
  | f + 1, c :: cs =>
    if leadsWith pat (c :: cs) then repl ++ replaceLitAux pat repl f ((c :: cs).drop pat.length)
    else c :: replaceLitAux pat repl f cs

/-- Literal global replacement. -/
def replaceLit (pat repl s : List Char) : List Char :=
  replaceLitAux pat repl (s.length + 1) s

/-- `value.replace(/\s+/g, ' ')`: collapse whitespace runs to single spaces. -/
def collapseWsAux (prevWs : Bool) : List Char → List Char
  | [] => []
  | c :: cs =>
    if isJsWs c then
      if prevWs then collapseWsAux true cs else ' ' :: collapseWsAux true cs
    else c :: collapseWsAux false cs

/-- `decodeXmlEntities` from `index.js`: decode the five standard entities,
collapse whitespace, trim. -/
def decodeXmlEntities (s : List Char) : List Char :=
  trimJs (collapseWsAux false
    (replaceLit (chars "&amp;") [ampC]
      (replaceLit (chars "&gt;") [gtC]
        (replaceLit (chars "&lt;") [ltC]
          (replaceLit (chars "&apos;") [aposC]
            (replaceLit (chars "&quot;") [quotC] s))))))

/-- `extractContextSnippet` from `index.js`: a ±400 character window around
the match, stripped of tags, entity-decoded, whitespace-collapsed, trimmed. -/
def contextSnippet (xml : List Char) (index len : Nat) : List Char :=
  let start := index - 400
  let stop := min xml.length (index + len + 400)
  decodeXmlEntities (stripXml ((xml.take stop).drop start))

/-- One detected placeholder as returned by the upload handler. -/
structure Placeholder where
  id : List Char
  label : List Char
  context : List Char
deriving DecidableEq

/-- The `while ((match = regex.exec(documentXml)) !== null)` loop of
`extractPlaceholders`: scan left to right, skip empty or already-seen trimmed
keys, otherwise record a placeholder whose id and label are the trimmed key. -/
def extractLoop (xml : List Char) : Nat → Nat → List (List Char) → List Placeholder → List Placeholder
  | 0, _, _, acc => acc
  | f + 1, pos, seen, acc =>
    if pos < xml.length then
      match matchExAt (xml.drop pos) with
      | none => extractLoop xml f (pos + 1) seen acc
      | some (n, grp) =>
        let rawKey := trimJs grp
        if rawKey = [] then extractLoop xml f (pos + n) seen acc
        else if rawKey ∈ seen then extractLoop xml f (pos + n) seen acc
        else
          extractLoop xml f (pos + n) (rawKey :: seen)
            (acc ++ [{ id := rawKey, label := rawKey, context := contextSnippet xml pos n }])
    else acc

/-- `extractPlaceholders` from `index.js`. -/
def extractPlaceholders (xml : List Char) : List Placeholder :=
  extractLoop xml (xml.length + 1) 0 [] []

/-! ## Session store and HTTP handlers

The zip container and the mammoth HTML renderer are external libraries; they
are modelled as abstract collaborator functions.  Fallible library calls
(loading a corrupt buffer, generating, rendering) return `Option`; a `none`
is the JavaScript exception caught by the handler's `try`/`catch`. -/

/-- External collaborators of the finalize handler. -/
structure Env (Zip Bytes Html : Type) where
  loadZip : Bytes → Option Zip
  getXml : Zip → Option (List Char)
  setXml : Zip → List Char → Zip
  generate : Zip → Option Bytes
  render : Bytes → Option Html

/-- One entry of the in-memory `documentStore` (`index.js` lines 61-68). -/
structure StoredDoc (Bytes Html : Type) where
  originalBuffer : Bytes
  previewHtml : Html
  placeholders : List Placeholder
  filledBuffer : Option Bytes
  filledHtml : Option Html
  lastValues : List (List Char × JsVal)

/-- Association-list lookup (the `Map.get` of the document store). -/
def alookup {κ α : Type} [DecidableEq κ] (k : κ) : List (κ × α) → Option α
  | [] => none
  | (k', v) :: rest => if k' = k then some v else alookup k rest

/-- Association-list update (the `Map.set` of the document store: replace in
place if present, append otherwise). -/
def aset {κ α : Type} [DecidableEq κ] (k : κ) (v : α) : List (κ × α) → List (κ × α)
  | [] => [(k, v)]
  | (k', v') :: rest => if k' = k then (k, v) :: rest else (k', v') :: aset k v rest

/-- The document created by the upload handler: no filled output yet. -/
def uploadStoredDoc {Bytes Html : Type} (buffer : Bytes) (preview : Html)
    (ps : List Placeholder) : StoredDoc Bytes Html :=
  { originalBuffer := buffer, previewHtml := preview, placeholders := ps,
    filledBuffer := none, filledHtml := none, lastValues := [] }

/-- Outcome of the finalize handler: a rendered preview or an HTTP status. -/
inductive FinRes (Html : Type) where
  | ok (html : Html)
  | error (status : Nat)
deriving DecidableEq

/-- The fallible middle of the finalize handler, operating on the original
bytes alone: load the container, read `word/document.xml` (missing part is a
400), substitute, repack, render. -/
def finalizeCore {Zip Bytes Html : Type} (env : Env Zip Bytes Html) (orig : Bytes)
    (vals : List (List Char × JsVal)) : Except Nat (Bytes × Html) :=
  match env.loadZip orig with
  | none => Except.error 500
  | some zip =>
    match env.getXml zip with
    | none => Except.error 400
    | some xml =>
      match env.generate (env.setXml zip (applyValues vals xml)) with
      | none => Except.error 500
      | some fb =>
        match env.render fb with
        | none => Except.error 500
        | some fh => Except.ok (fb, fh)

/-- The `POST /api/finalize` handler (`index.js` lines 141-189): request
validation, store lookup, substitution pipeline, and — only on full success —
the store update with the new filled bytes, filled HTML and last values. -/
def finalizeHandler {Zip Bytes Html : Type} (env : Env Zip Bytes Html)
    (store : List (String × StoredDoc Bytes Html)) (docId : String)
    (values : Option (List (List Char × JsVal))) :
    List (String × StoredDoc Bytes Html) × FinRes Html :=
  if docId = "" then (store, FinRes.error 400)
  else
    match values with
    | none => (store, FinRes.error 400)
    | some vals =>
      match alookup docId store with
      | none => (store, FinRes.error 404)
      | some doc =>
        match finalizeCore env doc.originalBuffer vals with
        | Except.error c => (store, FinRes.error c)
        | Except.ok (fb, fh) =>
          (aset docId
            { doc with filledBuffer := some fb, filledHtml := some fh, lastValues := vals }
            store,
           FinRes.ok fh)

/-- Outcome of the download handler. -/
inductive DlRes (Bytes : Type) where
  | notFound
  | ok (b : Bytes)
deriving DecidableEq

/-- The `GET /api/documents/:docId/download` handler (`index.js` lines
191-204): `filledBuffer || originalBuffer`. -/
def downloadHandler {Bytes Html : Type} (store : List (String × StoredDoc Bytes Html))
    (docId : String) : DlRes Bytes :=
  match alookup docId store with
  | none => DlRes.notFound
  | some doc =>
    DlRes.ok (match doc.filledBuffer with
      | some b => b
      | none => doc.originalBuffer)

/-! ## Frontend finalize guard (`finalizeDocument` in the frontend source)

Before sending the finalize request the frontend computes the placeholders
whose session value is absent or trims to the empty string; if any exist it
reports an error naming their labels and sends nothing. -/

/-- `!sessions[placeholder.id]?.value?.trim()`. -/
def isMissingVal (sessions : List (List Char × List Char)) (p : Placeholder) : Bool :=
  match alookup p.id sessions with
  | none => true
  | some v => (trimJs v).isEmpty

/-- The `missing` list of `finalizeDocument`. -/
def missingList (ps : List Placeholder) (sessions : List (List Char × List Char)) :
    List Placeholder :=
  ps.filter (isMissingVal sessions)

/-- Join with a separator (the `Array.prototype.join` of the error message). -/
def joinSep (sep : List Char) : List (List Char) → List Char
  | [] => []
  | [x] => x
  | x :: xs => x ++ sep ++ joinSep sep xs

/-- The error message shown for an incomplete value set. -/
def missingMsg (missing : List Placeholder) : List Char :=
  chars "Please provide values for: " ++ joinSep (chars ", ") (missing.map (·.label))

/-- `finalizeDocument` up to the request boundary: either the validation error
message, or the values payload that would be posted to `/api/finalize`. -/
def frontendFinalize (ps : List Placeholder) (sessions : List (List Char × List Char)) :
    Except (List Char) (List (List Char × List Char)) :=
  let missing := missingList ps sessions
  if missing.isEmpty then
    Except.ok (ps.map (fun p => (p.id, (alookup p.id sessions).getD [])))
  else Except.error (missingMsg missing)

/-! ## Concrete documents used by counterexamples and witnesses -/

/-- A primary part in which the curly token is split across three formatting
runs, as a word processor produces it. -/
def splitRunsXml : List Char :=
  chars "<w:t>" ++ [ob, ob] ++ chars "</w:t><w:t>name</w:t><w:t>" ++ [cb, cb] ++ chars "</w:t>"

/-- The spec's scenario document: a curly token and a dollar token. -/
def scenarioDoc : List Char :=
  chars "Dear " ++ [ob, ob] ++ chars "client_name" ++ [cb, cb] ++ chars ", sign here: $[_____]"

/-- A document with two occurrences of the same curly inner name. -/
def twoDatesDoc : List Char :=
  [ob, ob] ++ chars "date" ++ [cb, cb] ++ chars " and " ++ [ob, ob] ++ chars "date" ++ [cb, cb]

/-- Concrete collaborators where the container is the XML text itself and
every library call succeeds. -/
def envId : Env (List Char) (List Char) (List Char) :=
  { loadZip := some, getXml := some, setXml := fun _ x => x,
    generate := some, render := some }

/-- Concrete collaborators whose HTML renderer fails. -/
def envBad : Env (List Char) (List Char) (List Char) :=
  { loadZip := some, getXml := some, setXml := fun _ x => x,
    generate := some, render := fun _ => none }

/-- A freshly uploaded placeholder-free document. -/
def doc0 : StoredDoc (List Char) (List Char) :=
  uploadStoredDoc (chars "hi") (chars "p") []

/-- A store holding `doc0` under id `d`. -/
def store0 : List (String × StoredDoc (List Char) (List Char)) := [("d", doc0)]

/-- A single placeholder list used by the frontend-validation witness. -/
def phA : List Placeholder :=
  [{ id := chars "a", label := chars "A", context := [] }]

/-! ## Helper lemmas -/

theorem leadsWith_append_self : ∀ (a z : List Char), leadsWith a (a ++ z) = true := by
  intro a z
  induction a with
  | nil => rfl
  | cons c cs ih => simp [leadsWith, ih]

theorem wsPrefixLen_append_ws :
    ∀ (w x : List Char), (∀ c ∈ w, isJsWs c = true) →
      wsPrefixLen (w ++ x) = w.length + wsPrefixLen x := by
  intro w
  induction w with
  | nil => intro x _; simp [wsPrefixLen]
  | cons c cs ih =>
    intro x h
    have hc : isJsWs c = true := h c (by simp)
    have ihx := ih x (fun d hd => h d (by simp [hd]))
    simp [wsPrefixLen, hc, ihx]
    omega

theorem wsPrefixLen_cons_not {c : Char} (h : isJsWs c = false) (x : List Char) :
    wsPrefixLen (c :: x) = 0 := by
  simp [wsPrefixLen, h]

theorem gapLoop_of_gapTry {key s : List Char} {i r : Nat}
    (h : gapTry key s i = some r) : gapLoop key s i = some r := by
  cases i with
  | zero => simpa [gapLoop] using h
  | succ j => simp [gapLoop, h]

theorem replFinAux_of_hasFinAux_false {key repl : List Char} :
    ∀ (f : Nat) (b s : List Char), hasFinAux key f s = false →
      replFinAux key repl f b s = s := by
  intro f
  induction f with
  | zero => intro b s _; rfl
  | succ f ih =>
    intro b s h
    cases s with
    | nil => rfl
    | cons c cs =>
      simp only [hasFinAux, Bool.or_eq_false_iff] at h
      obtain ⟨h1, h2⟩ := h
      cases hm : matchFinAt key (c :: cs) with
      | some n => rw [hm] at h1; simp at h1
      | none =>
        simp only [replFinAux, hm]
        exact congrArg (c :: ·) (ih (b ++ [c]) cs h2)

/-! ## Claim theorems -/

/-- Claim C1 (code bug evaluation): the claim says finalize replaces every
`\x7b\x7bname\x7d\x7d` token with the XML-entity-escaped form of the bound
value.  For the value `$&` the escaped form is `$&amp;`, but the handler
passes that string as the second argument of `String.replace`, where `$&` is
the replacement pattern for the matched substring; substituting on the
document `\x7b\x7bname\x7d\x7d` therefore yields `\x7b\x7bname\x7d\x7damp;`
instead of `$&amp;`. -/
theorem c1_bug :
    applyEntry (chars "name") (JsVal.str [dollarC, ampC])
        ([ob, ob] ++ chars "name" ++ [cb, cb]) =
      [ob, ob] ++ chars "name" ++ [cb, cb] ++ chars "amp;" := by
  decide

/-- Claim C2 (counterexample): a token split across three formatting runs of
the raw markup — `\x7b\x7b`, `name`, `\x7d\x7d` each inside its own `w:t`
element — is not matched by the substitution pattern, so finalize leaves the
document unchanged, contradicting the claim that arbitrary markup tags are
tolerated between the literal characters of the token. -/
theorem c2_counterexample :
    hasFin (chars "name") splitRunsXml = false ∧
      applyEntry (chars "name") (JsVal.str (chars "X")) splitRunsXml = splitRunsXml := by
  constructor
  · decide
  · decide

/-- Claim C2 (amended): the substitution pattern built from a key tolerates
arbitrary whitespace — but nothing else, in particular no markup tags —
between the braces and the key: it matches `\x7b\x7b w1 key w2 \x7d\x7d` for
any whitespace runs `w1`, `w2` whenever the key starts with a non-whitespace
character, and it rejects a token whose braces are separated from the key by
markup tags. -/
theorem c2_amended :
    (∀ (kc : Char) (ktl w1 w2 rest : List Char),
        isJsWs kc = false → (∀ c ∈ w1, isJsWs c = true) → (∀ c ∈ w2, isJsWs c = true) →
        matchFinAt (kc :: ktl) ([ob, ob] ++ w1 ++ (kc :: ktl) ++ w2 ++ [cb, cb] ++ rest) =
          some (2 + w1.length + (kc :: ktl).length + w2.length + 2)) ∧
      matchFinAt (chars "name")
          ([ob, ob] ++ chars "<b>" ++ chars "name" ++ chars "</b>" ++ [cb, cb]) = none := by
  constructor
  · intro kc ktl w1 w2 rest hkc hw1 hw2
    have hcb : isJsWs cb = false := by decide
    have hrest :
        ([ob, ob] ++ w1 ++ (kc :: ktl) ++ w2 ++ [cb, cb] ++ rest : List Char) =
          ob :: ob :: (w1 ++ ((kc :: ktl) ++ (w2 ++ ([cb, cb] ++ rest)))) := by
      simp
    rw [hrest]
    have hws : wsPrefixLen (w1 ++ ((kc :: ktl) ++ (w2 ++ ([cb, cb] ++ rest)))) = w1.length := by
      rw [wsPrefixLen_append_ws w1 _ hw1, List.cons_append, wsPrefixLen_cons_not hkc]
      omega
    have hdrop1 :
        (w1 ++ ((kc :: ktl) ++ (w2 ++ ([cb, cb] ++ rest)))).drop w1.length =
          (kc :: ktl) ++ (w2 ++ ([cb, cb] ++ rest)) := by
      rw [List.drop_left]
    have hdrop2 :
        (w1 ++ ((kc :: ktl) ++ (w2 ++ ([cb, cb] ++ rest)))).drop
            (w1.length + (kc :: ktl).length) =
          w2 ++ ([cb, cb] ++ rest) := by
      rw [show (w1 ++ ((kc :: ktl) ++ (w2 ++ ([cb, cb] ++ rest)))) =
            ((w1 ++ (kc :: ktl)) ++ (w2 ++ ([cb, cb] ++ rest))) by simp,
          show w1.length + (kc :: ktl).length = (w1 ++ (kc :: ktl)).length by simp,
          List.drop_left]
    have hws0 : wsPrefixLen ([cb, cb] ++ rest : List Char) = 0 := by
      simp [wsPrefixLen, hcb]
    have hws2 : wsPrefixLen (w2 ++ ([cb, cb] ++ rest)) = w2.length := by
      rw [wsPrefixLen_append_ws w2 _ hw2, hws0]
      omega
    have hdrop3 : (w2 ++ ([cb, cb] ++ rest)).drop w2.length = [cb, cb] ++ rest := by
      rw [List.drop_left]
    have htake2 : (([cb, cb] ++ rest : List Char)).take 2 = [cb, cb] := by simp
    have htail : tailMatch (w2 ++ ([cb, cb] ++ rest)) = some (w2.length + 2) := by
      simp only [tailMatch]
      rw [hws2, hdrop3, htake2, if_pos rfl]
    have htry : gapTry (kc :: ktl) (w1 ++ ((kc :: ktl) ++ (w2 ++ ([cb, cb] ++ rest))))
        w1.length = some (w1.length + (kc :: ktl).length + (w2.length + 2)) := by
      unfold gapTry
      rw [hdrop1, leadsWith_append_self, if_pos rfl, hdrop2, htail]
      rfl
    have hm : matchFinAt (kc :: ktl)
        (ob :: ob :: (w1 ++ ((kc :: ktl) ++ (w2 ++ ([cb, cb] ++ rest))))) =
          (gapLoop (kc :: ktl) (w1 ++ ((kc :: ktl) ++ (w2 ++ ([cb, cb] ++ rest))))
            (wsPrefixLen (w1 ++ ((kc :: ktl) ++ (w2 ++ ([cb, cb] ++ rest)))))).map
              (fun r => r + 2) := by
      simp [matchFinAt]
    rw [hm, hws, gapLoop_of_gapTry htry]
    show some (w1.length + (kc :: ktl).length + (w2.length + 2) + 2) =
      some (2 + w1.length + (kc :: ktl).length + w2.length + 2)
    exact congrArg some (by omega)
  · decide

/-- Claim C2 (witness): the amended tolerance statement at a concrete token
with one space on each side of the key. -/
theorem c2_amended_witness :
    matchFinAt (Char.ofNat 110 :: chars "ame")
        ([ob, ob] ++ [Char.ofNat 32] ++ (Char.ofNat 110 :: chars "ame") ++
          [Char.ofNat 32] ++ [cb, cb] ++ []) =
      some (2 + [Char.ofNat 32].length + (Char.ofNat 110 :: chars "ame").length +
        [Char.ofNat 32].length + 2) :=
  c2_amended.1 (Char.ofNat 110) (chars "ame") [Char.ofNat 32] [Char.ofNat 32] []
    (by decide) (by decide) (by decide)

/-- The discovery pattern cannot match where no opening brace starts the text. -/
theorem matchExAt_none_of_no_ob {s : List Char} (h : ∀ c ∈ s, c ≠ ob) :
    matchExAt s = none := by
  cases s with
  | nil => rfl
  | cons c1 t =>
    cases t with
    | nil => rfl
    | cons c2 rest =>
      have h1 : c1 ≠ ob := h c1 (by simp)
      simp [matchExAt, h1]

/-- On a document containing no opening brace the extraction loop returns its
accumulator unchanged. -/
theorem extractLoop_no_ob {xml : List Char} (h : ∀ c ∈ xml, c ≠ ob) :
    ∀ (f pos : Nat) (seen : List (List Char)) (acc : List Placeholder),
      extractLoop xml f pos seen acc = acc := by
  intro f
  induction f with
  | zero => intro pos seen acc; rfl
  | succ f ih =>
    intro pos seen acc
    simp only [extractLoop]
    by_cases hp : pos < xml.length
    · rw [if_pos hp]
      have hm : matchExAt (xml.drop pos) = none :=
        matchExAt_none_of_no_ob (fun c hc => h c (List.mem_of_mem_drop hc))
      rw [hm]
      exact ih (pos + 1) seen acc
    · rw [if_neg hp]

/-- Claim C3 (counterexample): on the spec's scenario document
`Dear \x7b\x7bclient_name\x7d\x7d, sign here: $[_____]` the extractor returns
exactly one placeholder, `client_name` — not the two the claim requires, and
no anonymous `placeholder_1` for the dollar token. -/
theorem c3_counterexample :
    (extractPlaceholders scenarioDoc).map Placeholder.id = [chars "client_name"] ∧
      (extractPlaceholders scenarioDoc).length ≠ 2 := by
  constructor
  · decide
  · decide

/-- Claim C3 (amended): placeholder discovery finds only curly tokens.  A
document containing no opening brace — in particular one holding only dollar
tokens — yields no placeholders at all, and the scenario document yields
exactly the single curly placeholder `client_name`. -/
theorem c3_amended :
    (∀ s : List Char, (∀ c ∈ s, c ≠ ob) → extractPlaceholders s = []) ∧
      (extractPlaceholders scenarioDoc).map Placeholder.id = [chars "client_name"] := by
  constructor
  · intro s h
    exact extractLoop_no_ob h (s.length + 1) 0 [] []
  · decide

/-- Claim C3 (witness): a document consisting of a single dollar token is
brace-free, so the amended theorem applies and discovery finds nothing. -/
theorem c3_amended_witness : extractPlaceholders (chars "$[_____]") = [] :=
  c3_amended.1 (chars "$[_____]") (by decide)

/-- Invariant of the extraction loop: accumulated ids stay pairwise distinct
(they all live in `seen` and new entries are only added when unseen) and every
accumulated label equals its id. -/
theorem extractLoop_inv (xml : List Char) :
    ∀ (f pos : Nat) (seen : List (List Char)) (acc : List Placeholder),
      ((acc.map Placeholder.id).Nodup ∧ ∀ p ∈ acc, p.id ∈ seen) →
      (∀ p ∈ acc, p.label = p.id) →
      ((extractLoop xml f pos seen acc).map Placeholder.id).Nodup ∧
        ∀ p ∈ extractLoop xml f pos seen acc, p.label = p.id := by
  intro f
  induction f with
  | zero => intro pos seen acc h1 h2; exact ⟨h1.1, h2⟩
  | succ f ih =>
    intro pos seen acc h1 h2
    simp only [extractLoop]
    by_cases hp : pos < xml.length
    · rw [if_pos hp]
      cases hm : matchExAt (xml.drop pos) with
      | none => exact ih (pos + 1) seen acc h1 h2
      | some p =>
        obtain ⟨n, grp⟩ := p
        dsimp only
        by_cases he : trimJs grp = []
        · rw [if_pos he]
          exact ih (pos + n) seen acc h1 h2
        · rw [if_neg he]
          by_cases hs : trimJs grp ∈ seen
          · rw [if_pos hs]
            exact ih (pos + n) seen acc h1 h2
          · rw [if_neg hs]
            refine ih (pos + n) (trimJs grp :: seen) _ ⟨?_, ?_⟩ ?_
            · rw [List.map_append]
              rw [List.nodup_append]
              refine ⟨h1.1, by simp, ?_⟩
              intro a ha hb
              simp only [List.map_cons, List.map_nil, List.mem_singleton] at hb
              subst hb
              obtain ⟨q, hq, hqid⟩ := List.mem_map.mp ha
              exact hs (hqid ▸ h1.2 q hq)
            · intro q hq
              rcases List.mem_append.mp hq with hql | hqr
              · exact List.mem_cons_of_mem _ (h1.2 q hql)
              · simp only [List.mem_singleton] at hqr
                subst hqr
                exact List.mem_cons_self _ _
            · intro q hq
              rcases List.mem_append.mp hq with hql | hqr
              · exact h2 q hql
              · simp only [List.mem_singleton] at hqr
                subst hqr
                rfl
    · rw [if_neg hp]
      exact ⟨h1.1, h2⟩

/-- Claim C5 (counterexample): a document with two occurrences of
`\x7b\x7bdate\x7d\x7d` produces a single placeholder `date`; there is no
second entry with a numeric-suffix id (`date_2`) or a disambiguated label —
the colliding occurrence is skipped, not suffixed. -/
theorem c5_counterexample :
    (extractPlaceholders twoDatesDoc).map Placeholder.id = [chars "date"] ∧
      (extractPlaceholders twoDatesDoc).map Placeholder.label = [chars "date"] := by
  constructor
  · decide
  · decide

/-- Claim C5 (amended): the placeholder ids returned by upload are pairwise
distinct, because repeated occurrences of the same trimmed inner value are
skipped; no numeric-suffix disambiguation exists, and every label equals its
id verbatim. -/
theorem c5_amended :
    ∀ s : List Char,
      ((extractPlaceholders s).map Placeholder.id).Nodup ∧
        ∀ p ∈ extractPlaceholders s, p.label = p.id := by
  intro s
  exact extractLoop_inv s (s.length + 1) 0 [] []
    ⟨List.nodup_nil, by intro p hp; cases hp⟩ (by intro p hp; cases hp)

/-- Claim C5 (witness): the amended statement applied to the two-dates
document. -/
theorem c5_amended_witness :
    ((extractPlaceholders twoDatesDoc).map Placeholder.id).Nodup ∧
      ∀ p ∈ extractPlaceholders twoDatesDoc, p.label = p.id :=
  c5_amended twoDatesDoc

theorem alookup_aset_self {κ α : Type} [DecidableEq κ] (k : κ) (v : α)
    (l : List (κ × α)) : alookup k (aset k v l) = some v := by
  induction l with
  | nil => simp [alookup, aset]
  | cons p rest ih =>
    obtain ⟨k', v'⟩ := p
    by_cases hk : k' = k
    · simp [aset, alookup, hk]
    · simp [aset, alookup, hk, ih]

/-- Anatomy of a successful finalize request: the docId was non-empty, the
values object was present, the document was stored, the substitution pipeline
succeeded on the original bytes, and the resulting store update is exactly the
old document with new filled fields. -/
theorem finalizeHandler_ok_elim {Zip Bytes Html : Type} (env : Env Zip Bytes Html)
    (store : List (String × StoredDoc Bytes Html)) (docId : String)
    (values : Option (List (List Char × JsVal)))
    (st' : List (String × StoredDoc Bytes Html)) (h : Html)
    (heq : finalizeHandler env store docId values = (st', FinRes.ok h)) :
    docId ≠ "" ∧ ∃ vals doc fb, values = some vals ∧ alookup docId store = some doc ∧
      finalizeCore env doc.originalBuffer vals = Except.ok (fb, h) ∧
      st' = aset docId
        { doc with
            filledBuffer := some fb
            filledHtml := some h
            lastValues := vals } store := by
  by_cases hid : docId = ""
  · unfold finalizeHandler at heq
    rw [if_pos hid] at heq
    exact FinRes.noConfusion (congrArg Prod.snd heq)
  · refine ⟨hid, ?_⟩
    unfold finalizeHandler at heq
    rw [if_neg hid] at heq
    cases values with
    | none => exact FinRes.noConfusion (congrArg Prod.snd heq)
    | some vals =>
      dsimp only at heq
      cases hl : alookup docId store with
      | none =>
        rw [hl] at heq
        exact FinRes.noConfusion (congrArg Prod.snd heq)
      | some doc =>
        rw [hl] at heq
        dsimp only at heq
        cases hc : finalizeCore env doc.originalBuffer vals with
        | error c =>
          rw [hc] at heq
          exact FinRes.noConfusion (congrArg Prod.snd heq)
        | ok pr =>
          obtain ⟨fb, fh⟩ := pr
          rw [hc] at heq
          dsimp only at heq
          have h2 : FinRes.ok fh = FinRes.ok h := congrArg Prod.snd heq
          injection h2 with hfh
          subst hfh
          exact ⟨vals, doc, fb, rfl, rfl, hc, (congrArg Prod.fst heq).symm⟩

/-- A successful substitution pipeline rendered exactly the generated filled
bytes into the returned HTML. -/
theorem finalizeCore_ok_render {Zip Bytes Html : Type} (env : Env Zip Bytes Html)
    (orig : Bytes) (vals : List (List Char × JsVal)) (fb : Bytes) (fh : Html)
    (h : finalizeCore env orig vals = Except.ok (fb, fh)) : env.render fb = some fh := by
  unfold finalizeCore at h
  cases h1 : env.loadZip orig with
  | none => rw [h1] at h; exact Except.noConfusion h
  | some zip =>
    rw [h1] at h
    dsimp only at h
    cases h2 : env.getXml zip with
    | none => rw [h2] at h; exact Except.noConfusion h
    | some xml =>
      rw [h2] at h
      dsimp only at h
      cases h3 : env.generate (env.setXml zip (applyValues vals xml)) with
      | none => rw [h3] at h; exact Except.noConfusion h
      | some fb2 =>
        rw [h3] at h
        dsimp only at h
        cases h4 : env.render fb2 with
        | none => rw [h4] at h; exact Except.noConfusion h
        | some fh2 =>
          rw [h4] at h
          dsimp only at h
          injection h with hpair
          injection hpair with ha hb
          subst ha
          subst hb
          exact h4

/-- Claim C4: (1) the response of finalize is a function of the stored
document's original bytes and the supplied value set alone — two stores
holding the same original bytes under the same id produce the same response,
whatever filled state they carry; (2) after a successful finalize, repeating
the call with the same value set returns the same filled HTML. -/
theorem c4_spec :
    (∀ (Zip Bytes Html : Type) (env : Env Zip Bytes Html)
        (s1 s2 : List (String × StoredDoc Bytes Html)) (docId : String)
        (vals : List (List Char × JsVal)) (d1 d2 : StoredDoc Bytes Html),
        alookup docId s1 = some d1 → alookup docId s2 = some d2 →
        d1.originalBuffer = d2.originalBuffer →
        (finalizeHandler env s1 docId (some vals)).2 =
          (finalizeHandler env s2 docId (some vals)).2) ∧
      (∀ (Zip Bytes Html : Type) (env : Env Zip Bytes Html)
          (store st1 : List (String × StoredDoc Bytes Html)) (docId : String)
          (vals : List (List Char × JsVal)) (h : Html),
          finalizeHandler env store docId (some vals) = (st1, FinRes.ok h) →
          (finalizeHandler env st1 docId (some vals)).2 = FinRes.ok h) := by
  constructor
  · intro Zip Bytes Html env s1 s2 docId vals d1 d2 h1 h2 h3
    unfold finalizeHandler
    by_cases hid : docId = ""
    · simp only [if_pos hid]
    · simp only [if_neg hid]
      rw [h1, h2]
      dsimp only
      rw [h3]
      cases hc : finalizeCore env d2.originalBuffer vals with
      | error c => rfl
      | ok pr => obtain ⟨fb, fh⟩ := pr; rfl
  · intro Zip Bytes Html env store st1 docId vals h hrun
    obtain ⟨hid, vals', doc, fb, hveq, hl, hcore, hst⟩ :=
      finalizeHandler_ok_elim env store docId (some vals) st1 h hrun
    injection hveq with hveq'
    subst hveq'
    subst hst
    unfold finalizeHandler
    rw [if_neg hid]
    dsimp only
    rw [alookup_aset_self]
    dsimp only
    rw [hcore]

/-- Claim C4 (witness): with identity collaborators, finalizing the stored
document `hi` twice with the empty value set returns `ok hi` the second time
as well. -/
theorem c4_witness :
    (finalizeHandler envId
        (aset "d"
          { doc0 with
              filledBuffer := some (chars "hi")
              filledHtml := some (chars "hi")
              lastValues := [] } store0)
        "d" (some [])).2 = FinRes.ok (chars "hi") :=
  c4_spec.2 (List Char) (List Char) (List Char) envId store0 _ "d" [] (chars "hi") rfl

/-- Claim C6: if some detected placeholder has no value in the sessions map,
the frontend finalize flow fails with the validation message naming the labels
of the missing placeholders (and sends no finalize request, so no filled
output is produced). -/
theorem c6_spec :
    ∀ (ps : List Placeholder) (sessions : List (List Char × List Char)) (p : Placeholder),
      p ∈ ps → alookup p.id sessions = none →
      frontendFinalize ps sessions =
          Except.error (missingMsg (missingList ps sessions)) ∧
        p ∈ missingList ps sessions := by
  intro ps sessions p hp hnone
  have hmiss : isMissingVal sessions p = true := by simp [isMissingVal, hnone]
  have hpm : p ∈ missingList ps sessions := List.mem_filter.mpr ⟨hp, hmiss⟩
  have hne : (missingList ps sessions).isEmpty = false := by
    cases hml : missingList ps sessions with
    | nil => rw [hml] at hpm; cases hpm
    | cons a l => rfl
  refine ⟨?_, hpm⟩
  unfold frontendFinalize
  simp only [hne]
  rfl

/-- Claim C6 (witness): one placeholder, empty sessions map. -/
theorem c6_witness :
    frontendFinalize phA [] = Except.error (missingMsg (missingList phA [])) ∧
      ({ id := chars "a", label := chars "A", context := [] } : Placeholder) ∈
        missingList phA [] :=
  c6_spec phA [] { id := chars "a", label := chars "A", context := [] }
    (by decide) rfl

/-- Claim C7: if discovery found no placeholders, finalize with the empty
value set leaves the primary XML part unchanged (the substitution loop over
zero entries is the identity). -/
theorem c7_spec :
    ∀ xml : List Char, extractPlaceholders xml = [] → applyValues [] xml = xml := by
  intro xml _
  rfl

/-- Claim C7 (witness): a placeholder-free document survives unchanged. -/
theorem c7_witness :
    extractPlaceholders (chars "hello") = [] ∧
      applyValues [] (chars "hello") = chars "hello" :=
  ⟨by decide, c7_spec (chars "hello") (by decide)⟩

/-- Claim C8: whenever the finalize handler returns anything but success —
bad request, unknown document, container failure, repack or render failure —
the document store (hence the stored filled bytes, filled HTML and last
values) is exactly what it was before the call. -/
theorem c8_spec :
    ∀ (Zip Bytes Html : Type) (env : Env Zip Bytes Html)
      (store : List (String × StoredDoc Bytes Html)) (docId : String)
      (values : Option (List (List Char × JsVal)))
      (st' : List (String × StoredDoc Bytes Html)) (r : FinRes Html),
      finalizeHandler env store docId values = (st', r) →
      (∀ h, r ≠ FinRes.ok h) → st' = store := by
  intro Zip Bytes Html env store docId values st' r heq hne
  by_cases hid : docId = ""
  · unfold finalizeHandler at heq
    rw [if_pos hid] at heq
    exact (congrArg Prod.fst heq).symm
  · unfold finalizeHandler at heq
    rw [if_neg hid] at heq
    cases values with
    | none => exact (congrArg Prod.fst heq).symm
    | some vals =>
      dsimp only at heq
      cases hl : alookup docId store with
      | none =>
        rw [hl] at heq
        exact (congrArg Prod.fst heq).symm
      | some doc =>
        rw [hl] at heq
        dsimp only at heq
        cases hc : finalizeCore env doc.originalBuffer vals with
        | error c =>
          rw [hc] at heq
          exact (congrArg Prod.fst heq).symm
        | ok pr =>
          obtain ⟨fb, fh⟩ := pr
          rw [hc] at heq
          have h2 : FinRes.ok fh = r := congrArg Prod.snd heq
          exact absurd h2.symm (hne fh)

/-- Claim C8 (witness): with a rendering collaborator that fails, the handler
reports a 500 and the store is untouched. -/
theorem c8_witness :
    finalizeHandler envBad store0 "d" (some []) = (store0, FinRes.error 500) ∧
      store0 = store0 :=
  ⟨rfl, c8_spec (List Char) (List Char) (List Char) envBad store0 "d" (some [])
    store0 (FinRes.error 500) rfl (fun _ hcon => FinRes.noConfusion hcon)⟩

/-- Claim C9: download always succeeds for a stored document; a freshly
uploaded document (no finalize yet) downloads as its original bytes, a
document whose filled buffer is set downloads as that buffer, and after a
successful finalize the downloaded bytes are the generated filled bytes —
the ones whose rendering was returned as the preview. -/
theorem c9_spec :
    (∀ (Bytes Html : Type) (store : List (String × StoredDoc Bytes Html)) (docId : String)
        (b : Bytes) (ph : Html) (ps : List Placeholder),
        alookup docId store = some (uploadStoredDoc b ph ps) →
        downloadHandler store docId = DlRes.ok b) ∧
      (∀ (Bytes Html : Type) (store : List (String × StoredDoc Bytes Html)) (docId : String)
          (doc : StoredDoc Bytes Html) (fb : Bytes),
          alookup docId store = some doc → doc.filledBuffer = some fb →
          downloadHandler store docId = DlRes.ok fb) ∧
      (∀ (Zip Bytes Html : Type) (env : Env Zip Bytes Html)
          (store st1 : List (String × StoredDoc Bytes Html)) (docId : String)
          (vals : List (List Char × JsVal)) (h : Html),
          finalizeHandler env store docId (some vals) = (st1, FinRes.ok h) →
          ∃ fb, downloadHandler st1 docId = DlRes.ok fb ∧ env.render fb = some h) := by
  refine ⟨?_, ?_, ?_⟩
  · intro Bytes Html store docId b ph ps hl
    unfold downloadHandler
    rw [hl]
    rfl
  · intro Bytes Html store docId doc fb hl hfb
    unfold downloadHandler
    rw [hl]
    dsimp only
    rw [hfb]
  · intro Zip Bytes Html env store st1 docId vals h hrun
    obtain ⟨hid, vals', doc, fb, hveq, hl, hcore, hst⟩ :=
      finalizeHandler_ok_elim env store docId (some vals) st1 h hrun
    injection hveq with hveq'
    subst hveq'
    subst hst
    refine ⟨fb, ?_, finalizeCore_ok_render env doc.originalBuffer vals fb h hcore⟩
    unfold downloadHandler
    rw [alookup_aset_self]

/-- Claim C9 (witness): the freshly uploaded document downloads as its
original bytes. -/
theorem c9_witness : downloadHandler store0 "d" = DlRes.ok (chars "hi") :=
  c9_spec.1 (List Char) (List Char) store0 "d" (chars "hi") (chars "p") [] rfl

/-- Claim C10: finalize substitutes for every supplied key independently of
the detected placeholders — a key whose pattern matches nothing in the part
leaves the part unchanged (a silent no-op, never a failure), and a non-string
value is substituted exactly as the empty string. -/
theorem c10_spec :
    (∀ (key : List Char) (v : JsVal) (xml : List Char),
        hasFin key xml = false → applyEntry key v xml = xml) ∧
      ∀ (key xml : List Char),
        applyEntry key JsVal.nonStr xml = applyEntry key (JsVal.str []) xml := by
  constructor
  · intro key v xml h
    unfold applyEntry replaceFin
    exact replFinAux_of_hasFinAux_false (xml.length + 1) [] xml h
  · intro key xml
    rfl

/-- Claim C10 (witness): an unmatched key is a no-op and a non-string value
acts as the empty string. -/
theorem c10_witness :
    applyEntry (chars "zzz") (JsVal.str (chars "v")) (chars "hello") = chars "hello" ∧
      applyEntry (chars "zzz") JsVal.nonStr (chars "hello") =
        applyEntry (chars "zzz") (JsVal.str []) (chars "hello") :=
  ⟨c10_spec.1 (chars "zzz") (JsVal.str (chars "v")) (chars "hello") (by decide),
    c10_spec.2 (chars "zzz") (chars "hello")⟩

end Lexsy
